import Mathlib

/-!
Shallow embedding of the AirLoop loss and feature-extraction pipeline
(`models/loss.py`, `models/featurenet.py`).  Float tensors are modelled by
rationals; the IEEE NaN sentinel used for invalid correspondences is
modelled by `Option` (with `none` playing the role of a NaN-marked entry,
matching the fact that every comparison against NaN is false).
-/

namespace AirLoop

/-! ### CorrespondenceEngine: `feature_pt_ncovis` (loss.py lines 181-195)

One reprojected reference point, as seen from one target frame:
`scr` is the normalized screen coordinate `pts0_scr1` produced by
`projector.world2pix`, `depth` is the reprojected depth `pts0_depth1`,
and `sampled` is `pts0_scr1_depth1`, the value the target frame's depth
map takes at `scr` (via `grid_sample`). -/

structure ProjPt where
  scr : ℚ × ℚ
  depth : ℚ
  sampled : ℚ
deriving DecidableEq

/-- Line 189 mask:
`(pts0_depth1 < 0) | (pts0_depth1 > pts0_scr1_depth1 + eps) | ((pts0_scr1.abs() > 1).any(dim=-1))`. -/
def covisInvalid (eps : ℚ) (p : ProjPt) : Bool :=
  decide (p.depth < 0) || decide (p.sampled + eps < p.depth) ||
    (decide (1 < |p.scr.1|) || decide (1 < |p.scr.2|))

/-- Line 189 assignment `pts0_scr1[mask] = np.nan`: a marked point has both
coordinates replaced by the NaN sentinel (`none`); otherwise the projected
screen coordinate is kept. -/
def markPt (eps : ℚ) (p : ProjPt) : Option (ℚ × ℚ) :=
  if covisInvalid eps p then none else some p.scr

/-- Line 191: `pts0_scr1.isfinite().all(dim=-1).sum(dim=-1)` for one row
(one ordered frame pair): the number of points whose coordinates stayed
finite after sentinel marking. -/
def ncovisRow (eps : ℚ) (pts : List ProjPt) : ℕ :=
  ((pts.map (markPt eps)).countP (fun o => o.isSome))

/-- Lines 191-195: the co-visibility counts for all `B0 * B1` ordered frame
pairs (`grid` lists, for each ordered pair, the reference points as
reprojected into the target frame). -/
def feature_pt_ncovis (eps : ℚ) (grid : List (List ProjPt)) : List ℕ :=
  grid.map (ncovisRow eps)

/-- The invalidity condition as the specification words it: non-positive
depth, or reprojected depth *disagreeing* with the sampled target depth by
more than `eps` (two-sided), or the pixel outside the normalized bounds. -/
def specInvalid (eps : ℚ) (p : ProjPt) : Prop :=
  p.depth ≤ 0 ∨ eps < |p.depth - p.sampled| ∨
    ¬(-1 ≤ p.scr.1 ∧ p.scr.1 ≤ 1 ∧ -1 ≤ p.scr.2 ∧ p.scr.2 ≤ 1)

instance (eps : ℚ) (p : ProjPt) : Decidable (specInvalid eps p) := by
  unfold specInvalid; infer_instance

/-! ### DiscriptorMatchLoss: match/miss partition (loss.py lines 212-217)

The pairwise distance matrix `dist` may hold NaN where visibility failed
(line 213); an entry is modelled as `Option ℚ` with `none` for NaN.  In
PyTorch both `nan <= r` and `nan > r` are false, which the `none` branches
reproduce.  `triu(diagonal=1)` keeps an entry only when its column index
strictly exceeds its row index. -/

def matchMat (radius : ℚ) (dist : ℕ → ℕ → Option ℚ) (i j : ℕ) : Bool :=
  (match dist i j with
   | some d => decide (d ≤ radius)
   | none => false) && decide (i < j)

def missMat (radius : ℚ) (dist : ℕ → ℕ → Option ℚ) (i j : ℕ) : Bool :=
  (match dist i j with
   | some d => decide (radius < d)
   | none => false) && decide (i < j)

/-! ### torch.topk

`values.topk(k)` returns the `k` largest entries, sorted in descending
order, and raises an error when `k` exceeds the number of entries; the
error is modelled by `none`.  Ties are broken deterministically by
position (torch leaves tie order implementation-defined). -/

def topk {α : Type} (r : α → α → Prop) [DecidableRel r] (k : ℕ) (l : List α) :
    Option (List α) :=
  if k ≤ l.length then some ((l.insertionSort r).take k) else none

/-- Descending order on loss values, used by `loss_miss.topk(match.sum() * 2)`
(loss.py line 248). -/
def descOrder : ℚ → ℚ → Prop := fun a b => b ≤ a

instance : DecidableRel descOrder := fun a b => by unfold descOrder; infer_instance

instance : IsTotal ℚ descOrder := ⟨fun a b => le_total b a⟩

instance : IsTrans ℚ descOrder := ⟨fun _ _ _ h1 h2 => le_trans h2 h1⟩

/-! ### Memory and GlobalDescMatchLoss cold start (loss.py lines 137-178)

The `Memory` class lives in `models/memory.py`, which is not part of the
sources; its call contract is modelled from the spec. -/

structure MemFrame where
  gd : List ℚ
  desc : List (List ℚ)
  pts_w : List (ℚ × ℚ × ℚ)

/-- Modelled from the spec: `Memory.store(global_desc, local_desc, world_points)`
appends the current frame's record to the active environment's buffer
("store appends, sample draws from current occupants"); `models/memory.py`
is missing from the sources. -/
def memStore (mem : List MemFrame) (f : MemFrame) : List MemFrame :=
  mem ++ [f]

/-- Modelled from the spec: `len(memory)` is the occupancy count of the
active environment's buffer; `models/memory.py` is missing from the
sources. -/
def memLen (mem : List MemFrame) : ℕ :=
  mem.length

/-- Mean of a tensor viewed as a list of entries (`loss.mean()`). -/
def meanQ (l : List ℚ) : ℚ :=
  l.sum / l.length

/-- `GlobalDescMatchLoss.forward` control flow (loss.py lines 137-178): if
the memory is non-empty the per-batch losses `lossBody` (computed from the
sampled frames and the network, lines 144-157) are produced; otherwise the
loss tensor is `torch.zeros(1)` (line 159).  The current frame is stored
(line 176) and the mean loss returned (line 178). -/
def gdmForward (mem : List MemFrame) (cur : MemFrame) (lossBody : List ℚ) :
    ℚ × List MemFrame :=
  let loss := if 0 < memLen mem then lossBody else [0]
  (meanQ loss, memStore mem cur)

/-! ### FeatureNet keypoint extraction (featurenet.py lines 22-32, 74-118) -/

/-- `ConstantBorder(border, value)` (featurenet.py lines 22-32): crop
`border` pixels from every side (`ConstantPad2d(-border)`) and pad them
back with the constant `value`.  In `FeatureNet.__init__` it is applied as
`ConstantBorder(border=4, value=0)` at the end of the score head. -/
def constantBorder (b : ℕ) (v : ℚ) (H W : ℕ) (f : ℕ → ℕ → ℚ) (i j : ℕ) : ℚ :=
  if b ≤ i ∧ i + b < H ∧ b ≤ j ∧ j + b < W then f i j else v

/-- Maximum of the score map over the 7x7 window centred at `(i, j)`,
clipped to the image (the `MaxPool2d(7, stride=1, padding=3)` inside
kornia `NonMaximaSuppression2d`, whose implicit padding never wins a max). -/
def windowMax (H W : ℕ) (g : ℕ → ℕ → ℚ) (i j : ℕ) : ℚ :=
  ((((List.range H).filter fun a => i ≤ a + 3 ∧ a ≤ i + 3).map fun a =>
      ((((List.range W).filter fun b => j ≤ b + 3 ∧ b ≤ j + 3).map fun b =>
        g a b).foldl max (g i j))).foldl max (g i j))

/-- kornia `NonMaximaSuppression2d((7,7))`: keep a score that equals the
maximum of its 7x7 window, zero every other position (`x * (x == max)`). -/
def nmsMap (H W : ℕ) (g : ℕ → ℕ → ℚ) (i j : ℕ) : ℚ :=
  if g i j = windowMax H W g i j then g i j else 0

/-- The dense score map reaching `topk` in `FeatureNet.forward` line 102:
`f` is the convolutional score head output (external architecture), whose
4-pixel border is set to the constant 0, then non-maximum suppressed. -/
def scoreMap (H W : ℕ) (f : ℕ → ℕ → ℚ) : ℕ → ℕ → ℚ :=
  nmsMap H W (constantBorder 4 0 H W f)

/-- `view(B, -1, 1)` flattening (row-major): flat index `i` holds the score
at row `i / W`, column `i % W`, paired with its index as `topk` returns. -/
def flattenScores (H W : ℕ) (g : ℕ → ℕ → ℚ) : List (ℚ × ℕ) :=
  (List.range (H * W)).map fun i => (g (i / W) (i % W), i)

/-- Order used by `topk` on (score, flat index) pairs: larger score first,
ties broken by lower flat index. -/
def tkOrder : ℚ × ℕ → ℚ × ℕ → Prop := fun a b => b.1 < a.1 ∨ (a.1 = b.1 ∧ a.2 ≤ b.2)

instance : DecidableRel tkOrder := fun a b => by unfold tkOrder; infer_instance

instance : IsTotal (ℚ × ℕ) tkOrder := by
  constructor
  intro a b
  unfold tkOrder
  rcases lt_trichotomy a.1 b.1 with h | h | h
  · exact Or.inr (Or.inl h)
  · rcases Nat.le_total a.2 b.2 with h2 | h2
    · exact Or.inl (Or.inr ⟨h, h2⟩)
    · exact Or.inr (Or.inr ⟨h.symm, h2⟩)
  · exact Or.inl (Or.inl h)

instance : IsTrans (ℚ × ℕ) tkOrder := by
  constructor
  intro a b c hab hbc
  unfold tkOrder at *
  rcases hab with h1 | ⟨h1, h1i⟩
  · rcases hbc with h2 | ⟨h2, _⟩
    · exact Or.inl (lt_trans h2 h1)
    · exact Or.inl (h2 ▸ h1)
  · rcases hbc with h2 | ⟨h2, h2i⟩
    · exact Or.inl (h1 ▸ h2)
    · exact Or.inr ⟨h1.trans h2, le_trans h1i h2i⟩

/-- `scores, points = self.nms(pointness).view(B,-1,1).topk(self.feat_num, dim=1)`
(featurenet.py line 102), for one image of the batch. -/
def featureTopk (featNum H W : ℕ) (f : ℕ → ℕ → ℚ) : Option (List (ℚ × ℕ)) :=
  topk tkOrder featNum (flattenScores H W (scoreMap H W f))

/-- kornia `normalize_pixel_coordinates` for one coordinate of extent
`size`: `x * 2 / (size - 1) - 1`. -/
def normalize_coord (x : ℚ) (size : ℕ) : ℚ :=
  2 * x / ((size : ℚ) - 1) - 1

/-- kornia `denormalize_pixel_coordinates` for one coordinate:
`(x + 1) * (size - 1) / 2`. -/
def denormalize_coord (x : ℚ) (size : ℕ) : ℚ :=
  (x + 1) * ((size : ℚ) - 1) / 2

/-- Lines 104-106: `points = torch.cat((points % W, points // W), dim=-1)`
then `C.normalize_pixel_coordinates(points, H, W)`. -/
def idxToPoint (H W : ℕ) (i : ℕ) : ℚ × ℚ :=
  (normalize_coord ((i % W : ℕ) : ℚ) W, normalize_coord ((i / W : ℕ) : ℚ) H)

/-- The keypoint part of `FeatureNet.forward` for one image: normalized
keypoint coordinates and their scores (featurenet.py lines 100-106). -/
def featureForward (featNum H W : ℕ) (f : ℕ → ℕ → ℚ) :
    Option (List (ℚ × ℚ) × List ℚ) :=
  (featureTopk featNum H W f).map fun l =>
    (l.map fun s => idxToPoint H W s.2, l.map fun s => s.1)

/-- A pixel position `(x, y)` lying within the 4-pixel border of an `H * W`
image. -/
def inBorder (H W x y : ℕ) : Prop :=
  x < 4 ∨ W ≤ x + 4 ∨ y < 4 ∨ H ≤ y + 4

instance (H W x y : ℕ) : Decidable (inBorder H W x y) := by
  unfold inBorder; infer_instance

/-- The round trip of claim C6: flat index to `(x, y) = (idx % W, idx // W)`,
normalize to `[-1,1]^2`, denormalize, round. -/
def pixelRoundtrip (idx H W : ℕ) : ℤ × ℤ :=
  (round (denormalize_coord (normalize_coord ((idx % W : ℕ) : ℚ) W) W),
   round (denormalize_coord (normalize_coord ((idx / W : ℕ) : ℚ) H) H))

/-! ### PairwiseCosine (loss.py lines 289-301) -/

/-- Squared norm along the descriptor dimension: `torch.sum(x ** 2, dim=-1)`
for one descriptor. -/
def sumSq {n : ℕ} (x : Fin n → ℚ) : ℚ :=
  ∑ i, (x i) ^ 2

/-- One entry of the einsum `xy`: the dot product of two descriptors. -/
def dotProd {n : ℕ} (x y : Fin n → ℚ) : ℚ :=
  ∑ i, x i * y i

/-- Default `eps = 1e-8` of `PairwiseCosine`. -/
def cosEps : ℚ :=
  1 / 100000000

/-- The clamped squared denominator `(xx * yy).clamp(min=self.eps ** 2)` of
`PairwiseCosine.forward`; the returned entry is
`dotProd x y / Real.sqrt (cosDenomSq x y)`. -/
def cosDenomSq {n : ℕ} (x y : Fin n → ℚ) : ℚ :=
  max (sumSq x * sumSq y) (cosEps ^ 2)

/-! ## Theorems -/

/-- C1 counterexample: the claim's sentinel condition does not match the
code.  At a reprojected point with depth exactly 0 (and agreeing sampled
depth, in-bounds coordinate), the spec-worded condition demands the NaN
sentinel ("non-positive depth"), but line 189 tests `pts0_depth1 < 0`
strictly and keeps the point. -/
theorem covis_sentinel_spec_mismatch :
    ¬ ((markPt 1 ⟨(0, 0), 0, 0⟩ = none) ↔ specInvalid 1 ⟨(0, 0), 0, 0⟩) := by
  intro h
  have h1 : markPt 1 ⟨(0, 0), 0, 0⟩ = some (0, 0) := by
    unfold markPt covisInvalid
    norm_num
  have h2 : specInvalid 1 ⟨(0, 0), 0, 0⟩ := Or.inl le_rfl
  have h3 := h.mpr h2
  rw [h1] at h3
  exact Option.noConfusion h3

/-- C1 (amended): the reprojected correspondence is assigned the NaN
sentinel iff the reprojected depth is strictly negative, or the
reprojected depth exceeds the sampled target depth by more than `eps`
(one-sided: points closer than the target surface are kept), or either
normalized coordinate has absolute value above 1; otherwise the projected
screen coordinate is left unchanged. -/
theorem covis_sentinel_iff (eps : ℚ) (p : ProjPt) :
    ((markPt eps p = none) ↔
      (p.depth < 0 ∨ p.sampled + eps < p.depth ∨ 1 < |p.scr.1| ∨ 1 < |p.scr.2|)) ∧
    (markPt eps p = none ∨ markPt eps p = some p.scr) := by
  unfold markPt covisInvalid
  by_cases h1 : p.depth < 0 <;> by_cases h2 : p.sampled + eps < p.depth <;>
    by_cases h3 : 1 < |p.scr.1| <;> by_cases h4 : 1 < |p.scr.2| <;>
    simp [h1, h2, h3, h4]

/-- C2: `feature_pt_ncovis` returns one entry per ordered frame pair, the
entry being the count of reference points whose reprojection stayed valid
(was not marked with the sentinel); every entry is a natural number
bounded by the number of reference points per frame. -/
theorem ncovis_counts_valid (eps : ℚ) (grid : List (List ProjPt)) (pts : List ProjPt) :
    feature_pt_ncovis eps grid =
      grid.map (fun row => row.countP fun p => !covisInvalid eps p) ∧
    ncovisRow eps pts ≤ pts.length := by
  constructor
  · unfold feature_pt_ncovis
    refine List.map_congr_left fun row _ => ?_
    unfold ncovisRow
    rw [List.countP_map]
    refine List.countP_congr fun p _ => ?_
    unfold markPt
    by_cases h : covisInvalid eps p <;> simp [h]
  · unfold ncovisRow
    calc ((pts.map (markPt eps)).countP (fun o => o.isSome))
        ≤ (pts.map (markPt eps)).length := List.countP_le_length _
      _ = pts.length := List.length_map _ _

/-- C3: after restriction to the strict upper triangle, the `match` and
`miss` boolean matrices are disjoint; an entry whose distance is the NaN
sentinel belongs to neither; and an entry with a finite distance inside
the triangle belongs to exactly one of the two. -/
theorem match_miss_partition (radius : ℚ) (dist : ℕ → ℕ → Option ℚ) (i j : ℕ) :
    (¬ (matchMat radius dist i j = true ∧ missMat radius dist i j = true)) ∧
    (dist i j = none → matchMat radius dist i j = false ∧ missMat radius dist i j = false) ∧
    (∀ d, dist i j = some d → i < j →
      (matchMat radius dist i j = true ↔ missMat radius dist i j = false)) := by
  refine ⟨?_, ?_, ?_⟩
  · rintro ⟨hm, hs⟩
    unfold matchMat at hm
    unfold missMat at hs
    rcases h : dist i j with _ | d <;> rw [h] at hm hs <;> simp at hm hs
    exact absurd hs.1 (not_lt.mpr hm.1)
  · intro h
    unfold matchMat missMat
    rw [h]
    simp
  · intro d h hij
    unfold matchMat missMat
    rw [h]
    simp [hij, not_lt]

/-- C3 witness: a concrete finite-distance pair in the strict upper
triangle lies in exactly one of the two sets. -/
theorem match_miss_partition_witness :
    matchMat 1 (fun _ _ => some (1/2)) 0 1 = true ↔
      missMat 1 (fun _ _ => some (1/2)) 0 1 = false :=
  (match_miss_partition 1 (fun _ _ => some (1/2)) 0 1).2.2 (1/2) rfl (by decide)

/-- C4: hard negative mining `loss_miss.topk(match.sum() * 2)` (loss.py
line 248): whenever the number of miss pairs is at least twice the number
`m` of match pairs, the retained tensor exists (topk does not fail) and
holds exactly `2 * m` elements, the highest-loss misses in descending
order of loss value. -/
theorem hard_negative_topk_count (lossMiss : List ℚ) (m : ℕ)
    (h : m * 2 ≤ lossMiss.length) :
    ∃ kept, topk descOrder (m * 2) lossMiss = some kept ∧ kept.length = m * 2 := by
  refine ⟨(lossMiss.insertionSort descOrder).take (m * 2), ?_, ?_⟩
  · unfold topk
    rw [if_pos h]
  · rw [List.length_take, List.length_insertionSort]
    exact Nat.min_eq_left h

/-- C4 witness: four misses and one match retain exactly two losses. -/
theorem hard_negative_topk_count_witness :
    (1 : ℕ) * 2 ≤ ([5, 3, 9, 7] : List ℚ).length ∧
      ∃ kept, topk descOrder (1 * 2) ([5, 3, 9, 7] : List ℚ) = some kept ∧
        kept.length = 1 * 2 :=
  ⟨by decide, hard_negative_topk_count [5, 3, 9, 7] 1 (by decide)⟩

/-- C5 (Memory modelled from the spec): on a cold start (empty memory of
the active environment) `GlobalDescMatchLoss.forward` returns the zero
scalar `torch.zeros(1).mean()` without failing, and the single `store`
call of line 176 leaves the memory holding exactly the current frame, so
`len(memory) == 1` afterwards. -/
theorem gdm_cold_start (cur : MemFrame) (lossBody : List ℚ) :
    gdmForward [] cur lossBody = (0, [cur]) ∧
      memLen (gdmForward [] cur lossBody).2 = 1 := by
  constructor
  · unfold gdmForward memLen memStore meanQ
    simp
  · unfold gdmForward memLen memStore
    simp

/-- Helper: the flattened score list has exactly `H * W` entries. -/
theorem flattenScores_length (H W : ℕ) (g : ℕ → ℕ → ℚ) :
    (flattenScores H W g).length = H * W := by
  unfold flattenScores
  rw [List.length_map, List.length_range]

/-- Helper: denormalizing a normalized coordinate is the identity for any
extent of at least 2 pixels. -/
theorem denormalize_normalize (x : ℚ) (s : ℕ) (hs : 1 < s) :
    denormalize_coord (normalize_coord x s) s = x := by
  unfold normalize_coord denormalize_coord
  have h1 : (1 : ℚ) < (s : ℚ) := by exact_mod_cast hs
  have h0 : ((s : ℚ) - 1) ≠ 0 := by linarith
  field_simp

/-- C6: for every flat index `idx < H * W` (on an image of extent at least
2 in each direction), converting to `(x, y) = (idx mod W, idx div W)`,
normalizing to `[-1,1]^2`, denormalizing and rounding recovers the index:
`round(x) * 1 + round(y) * W = idx`, exactly. -/
theorem pixel_index_roundtrip (H W idx : ℕ) (hH : 1 < H) (hW : 1 < W)
    (hidx : idx < H * W) :
    (pixelRoundtrip idx H W).1 + (pixelRoundtrip idx H W).2 * W = idx := by
  unfold pixelRoundtrip
  rw [denormalize_normalize _ _ hW, denormalize_normalize _ _ hH,
    round_natCast, round_natCast]
  dsimp only
  exact_mod_cast Nat.mod_add_div' idx W

/-- C6 witness: index 5 of a 3x4 image survives the round trip. -/
theorem pixel_index_roundtrip_witness :
    (1 < 3 ∧ 1 < 4 ∧ 5 < 3 * 4) ∧
      (pixelRoundtrip 5 3 4).1 + (pixelRoundtrip 5 3 4).2 * 4 = 5 :=
  ⟨⟨by decide, by decide, by decide⟩,
    pixel_index_roundtrip 3 4 5 (by decide) (by decide) (by decide)⟩

/-- C7: when the score map has fewer than `feat_num` pixels, `topk` in
`FeatureNet.forward` (featurenet.py line 102) fails (torch raises; the
error is modelled by `none`) instead of silently padding or truncating. -/
theorem topk_insufficient_candidates (featNum H W : ℕ) (f : ℕ → ℕ → ℚ)
    (h : H * W < featNum) :
    featureForward featNum H W f = none := by
  unfold featureForward featureTopk topk
  rw [flattenScores_length, if_neg (not_le.mpr h)]
  rfl

/-- C7 witness: a 1x1 score map cannot provide 2 keypoints. -/
theorem topk_insufficient_candidates_witness :
    1 * 1 < 2 ∧ featureForward 2 1 1 (fun _ _ => 0) = none :=
  ⟨by decide, topk_insufficient_candidates 2 1 1 (fun _ _ => 0) (by decide)⟩

set_option maxRecDepth 100000 in
/-- C8 counterexample: keypoints inside the 4-pixel border can be
returned.  On an 8x8 image the constant border (value 0, not minus
infinity) covers every pixel, every score reaching `topk` is 0, and the
two keypoints selected lie in the border.  This falsifies the claim that
no returned keypoint ever lies within the 4-pixel border. -/
theorem border_keypoint_possible :
    ∃ l, featureTopk 2 8 8 (fun _ _ => mkRat 1 2) = some l ∧
      ∃ s ∈ l, inBorder 8 8 (s.2 % 8) (s.2 / 8) := by
  refine ⟨[(0, 0), (0, 1)], by decide, (0, 0), by decide, by decide⟩

/-- C8 (amended): the dense score map has its 4-pixel border set to the
constant 0 before top-N selection, so every keypoint returned from within
the 4-pixel border has score exactly 0; in particular no keypoint with a
positive score lies in the border.  (Keypoints in the border can still be
returned when fewer than `feat_num` positive scores survive NMS, since
the border constant is 0 rather than minus infinity.) -/
theorem border_keypoint_score_zero (featNum H W : ℕ) (f : ℕ → ℕ → ℚ)
    (l : List (ℚ × ℕ)) (hl : featureTopk featNum H W f = some l) :
    ∀ s ∈ l, inBorder H W (s.2 % W) (s.2 / W) → s.1 = 0 := by
  intro s hs hb
  unfold featureTopk topk at hl
  by_cases hk : featNum ≤ (flattenScores H W (scoreMap H W f)).length
  swap
  · rw [if_neg hk] at hl
    exact absurd hl (by simp)
  rw [if_pos hk] at hl
  have hsl : s ∈ (flattenScores H W (scoreMap H W f)).insertionSort tkOrder := by
    have htake := List.take_sublist featNum
      ((flattenScores H W (scoreMap H W f)).insertionSort tkOrder)
    exact htake.subset (by rw [Option.some_inj.mp hl]; exact hs)
  have hmem : s ∈ flattenScores H W (scoreMap H W f) :=
    (List.mem_insertionSort tkOrder).mp hsl
  unfold flattenScores at hmem
  rw [List.mem_map] at hmem
  obtain ⟨i, _, hsi⟩ := hmem
  have h1 : s.1 = scoreMap H W f (i / W) (i % W) := by rw [← hsi]
  have h2 : s.2 = i := by rw [← hsi]
  rw [h2] at hb
  have hcb : constantBorder 4 0 H W f (i / W) (i % W) = 0 := by
    unfold constantBorder
    rw [if_neg]
    unfold inBorder at hb
    omega
  rw [h1]
  unfold scoreMap nmsMap
  rw [hcb]
  split <;> rfl

/-- C8 amended witness: on a 1x1 map the single returned keypoint lies in
the border and its score is 0. -/
theorem border_keypoint_score_zero_witness :
    featureTopk 1 1 1 (fun _ _ => 0) = some [((0 : ℚ), (0 : ℕ))] ∧
      ((0 : ℚ), (0 : ℕ)).1 = 0 :=
  ⟨by decide,
    border_keypoint_score_zero 1 1 1 (fun _ _ => 0) [((0 : ℚ), (0 : ℕ))]
      (by decide) ((0 : ℚ), (0 : ℕ)) (by decide) (by decide)⟩

/-- C9: `PairwiseCosine.forward` is total and bounded: the clamped
denominator `sqrt((xx * yy).clamp(min=eps^2))` is strictly positive (no
division by zero, even for zero descriptors), and every entry
`xy / sqrt(clamp(xx * yy, eps^2))` of the returned similarity tensor lies
in `[-1, 1]`. -/
theorem pairwise_cosine_bounded {n : ℕ} (x y : Fin n → ℚ) :
    0 < Real.sqrt ((cosDenomSq x y : ℚ) : ℝ) ∧
      |((dotProd x y : ℚ) : ℝ) / Real.sqrt ((cosDenomSq x y : ℚ) : ℝ)| ≤ 1 := by
  have hpos : (0 : ℝ) < ((cosDenomSq x y : ℚ) : ℝ) := by
    have h1 : (0 : ℚ) < cosDenomSq x y :=
      lt_of_lt_of_le (by norm_num [cosEps]) (le_max_right _ _)
    exact_mod_cast h1
  have hsq : 0 < Real.sqrt ((cosDenomSq x y : ℚ) : ℝ) := Real.sqrt_pos.mpr hpos
  refine ⟨hsq, ?_⟩
  rw [abs_div, abs_of_nonneg (Real.sqrt_nonneg _), div_le_one hsq]
  have hcs : (dotProd x y) ^ 2 ≤ sumSq x * sumSq y := by
    unfold dotProd sumSq
    exact Finset.sum_mul_sq_le_sq_mul_sq Finset.univ x y
  have hle : ((dotProd x y) ^ 2 : ℚ) ≤ cosDenomSq x y :=
    le_trans hcs (le_max_left _ _)
  have hleR : (((dotProd x y : ℚ) : ℝ)) ^ 2 ≤ ((cosDenomSq x y : ℚ) : ℝ) := by
    exact_mod_cast hle
  calc |((dotProd x y : ℚ) : ℝ)|
      = Real.sqrt ((((dotProd x y : ℚ) : ℝ)) ^ 2) := (Real.sqrt_sq_eq_abs _).symm
    _ ≤ Real.sqrt ((cosDenomSq x y : ℚ) : ℝ) := Real.sqrt_le_sqrt hleR

/-- C10: whenever the score map has at least `feat_num` pixels,
`FeatureNet.forward` returns exactly `feat_num` keypoint coordinates and
`feat_num` scores per image, and the scores are sorted in non-increasing
order (torch `topk` returns its values sorted descending). -/
theorem feature_forward_shape_sorted (featNum H W : ℕ) (f : ℕ → ℕ → ℚ)
    (h : featNum ≤ H * W) :
    ∃ pts scores, featureForward featNum H W f = some (pts, scores) ∧
      pts.length = featNum ∧ scores.length = featNum ∧
      scores.Sorted (fun a b : ℚ => b ≤ a) := by
  have hk : featNum ≤ (flattenScores H W (scoreMap H W f)).length := by
    rw [flattenScores_length]
    exact h
  have htk : featureTopk featNum H W f =
      some (((flattenScores H W (scoreMap H W f)).insertionSort tkOrder).take featNum) := by
    unfold featureTopk topk
    rw [if_pos hk]
  have hlen :
      ((((flattenScores H W (scoreMap H W f)).insertionSort tkOrder).take featNum)).length
        = featNum := by
    rw [List.length_take, List.length_insertionSort]
    exact Nat.min_eq_left hk
  refine ⟨(((flattenScores H W (scoreMap H W f)).insertionSort tkOrder).take featNum).map
      (fun s => idxToPoint H W s.2),
    (((flattenScores H W (scoreMap H W f)).insertionSort tkOrder).take featNum).map
      (fun s => s.1), ?_, ?_, ?_, ?_⟩
  · unfold featureForward
    rw [htk]
    rfl
  · rw [List.length_map]
    exact hlen
  · rw [List.length_map]
    exact hlen
  · have hs : (((flattenScores H W (scoreMap H W f)).insertionSort tkOrder)).Sorted tkOrder :=
      List.sorted_insertionSort tkOrder _
    have hst :
        ((((flattenScores H W (scoreMap H W f)).insertionSort tkOrder).take featNum)).Sorted
          tkOrder :=
      List.Pairwise.sublist (List.take_sublist _ _) hs
    rw [List.Sorted, List.pairwise_map]
    refine hst.imp ?_
    intro a b hab
    rcases hab with h1 | ⟨h1, _⟩
    · exact le_of_lt h1
    · exact le_of_eq h1.symm

/-- C10 witness: a 1x1 map with one requested keypoint returns one
coordinate and one sorted score. -/
theorem feature_forward_shape_sorted_witness :
    1 ≤ 1 * 1 ∧
      ∃ pts scores, featureForward 1 1 1 (fun _ _ => 0) = some (pts, scores) ∧
        pts.length = 1 ∧ scores.length = 1 ∧
        scores.Sorted (fun a b : ℚ => b ≤ a) :=
  ⟨by decide, feature_forward_shape_sorted 1 1 1 (fun _ _ => 0) (by decide)⟩

end AirLoop
